import Mathlib

/-!
# Verification of the `reg` OCI registry coordination layer

A shallow embedding of the registry's core operations:

* the read path for blobs (`getBlobRedirect`),
* the manifest ingestion pipeline (`putManifest` and the metadata-index
  operation `PutManifest`),
* the metadata-index read operations (`GetManifest`, `ListRepositories`),
* the upload session state machine (`uploadChunk`, `completeUpload`,
  `abortUpload`) and the HTTP adapter for chunk uploads.

Strings model Go strings (the data handled by the registry is ASCII, so
character-level and byte-level slicing coincide).  Fallible operations
return `Except`/`Option`; Go runtime panics (out-of-range slicing) are a
distinguished outcome.  SQLite tables are association lists; a statement
that the database engine may refuse is driven by an explicit fault oracle
(`failAt`-style parameters), mirroring the `error`-returning `Exec` calls
of the source.
-/

/-- Go's `strings.Cut(s, ":")` on the character list: split at the first
colon, returning the parts before and after it, or `none` when no colon
occurs. -/
def cutColonList : List Char → Option (List Char × List Char)
  | [] => none
  | c :: rest =>
    if c = ':' then some ([], rest)
    else
      match cutColonList rest with
      | none => none
      | some (pre, post) => some (c :: pre, post)

/-- Go's `strings.Cut(s, ":")`. -/
def cutColon (s : String) : Option (String × String) :=
  match cutColonList s.data with
  | none => none
  | some (a, b) => some (String.mk a, String.mk b)

/-- Go string slicing `s[i:j]`: defined (`some`) exactly when
`i ≤ j ∧ j ≤ len(s)`; otherwise the Go runtime panics (`none`). -/
def goSlice (s : String) (i j : Nat) : Option String :=
  if i ≤ j ∧ j ≤ s.length then some (String.mk ((s.data.drop i).take (j - i)))
  else none

/-- Outcome of `Registry.getBlobRedirect` (src/unnamed/part_004, lines
55-94), restricted to the digest-to-key computation: the method switch and
the presigned-URL minting depend only on the constructed blob key. -/
inductive BlobRedirect where
  | invalidDigest
  | panicked
  | redirect (blobKey : String)
deriving DecidableEq, Repr

/-- `Registry.getBlobRedirect`: split the digest at the first `:`
(`BadDigest` if absent), then build
`docker/registry/v2/blobs/<algo>/<hex[0:2]>/<hex>/data`.  The slice
`hex[0:2]` is Go slicing and panics when the part after the colon is
shorter than two characters. -/
def getBlobRedirect (dig : String) : BlobRedirect :=
  match cutColon dig with
  | none => .invalidDigest
  | some (algo, hex) =>
    match goSlice hex 0 2 with
    | none => .panicked
    | some h2 =>
      .redirect ("docker/registry/v2/blobs/" ++ algo ++ "/" ++ h2 ++ "/" ++ hex ++ "/data")

theorem goSlice_two_of_le (hex : String) (hlen : 2 ≤ hex.length) :
    goSlice hex 0 2 = some (String.mk (hex.data.take 2)) := by
  simp [goSlice, hlen]

/-- **C10**: `getBlobRedirect` is total only for digest strings whose part
after the first `:` has length at least 2: for every digest containing `:`
with a hex part of length ≥ 2 the blob key is constructed without error,
but on `"sha256:a"` the slice `hex[0:2]` is out of bounds, so the call
panics instead of reaching the `BadDigest` error branch. -/
theorem c10_getBlobRedirect_hex_totality :
    (∀ dig algo hex, cutColon dig = some (algo, hex) → 2 ≤ hex.length →
      ∃ k, getBlobRedirect dig = BlobRedirect.redirect k) ∧
    getBlobRedirect "sha256:a" = BlobRedirect.panicked := by
  constructor
  · intro dig algo hex hcut hlen
    refine ⟨"docker/registry/v2/blobs/" ++ algo ++ "/" ++ String.mk (hex.data.take 2) ++
      "/" ++ hex ++ "/data", ?_⟩
    simp only [getBlobRedirect, hcut, goSlice_two_of_le hex hlen]
  · decide

/-- Witness for C10 at the concrete digest `"sha256:ab"`. -/
theorem c10_getBlobRedirect_hex_totality_witness :
    ∃ k, getBlobRedirect "sha256:ab" = BlobRedirect.redirect k :=
  c10_getBlobRedirect_hex_totality.1 "sha256:ab" "sha256" "ab" (by decide) (by decide)

/-! ## Metadata index (`RegistryDB`, src/pkg/reg/db.go)

Tables are association lists.  `tags` has composite primary key
`(repository, name)` and is kept in primary-key index order (the order the
SQLite index delivers rows for range queries); `manifests` is keyed by the
tag row (modelled by its natural key), `layers` by digest, and
`manifest_layers` holds `(manifest, layer_digest, layer_index)` rows. -/

/-- Natural key of a tag row: `(repository, name)`. -/
abbrev TagKey := String × String

/-- One decoded OCI layer descriptor: the fields `PutManifest` reads
(`layer.Digest.String()`, `layer.MediaType`, `layer.Size`). -/
structure LayerDesc where
  digest : String
  mediaType : String
  size : Int
deriving DecidableEq, Repr

/-- The decoded manifest (`v1.Manifest`), restricted to the fields the
index uses. -/
structure ManifestV1 where
  mediaType : String
  layers : List LayerDesc
deriving DecidableEq, Repr

/-- The SQLite database state: one field per table. -/
structure IndexDB where
  tags : List TagKey
  manifests : List (TagKey × String)
  layers : List (String × String × Int)
  manifestLayers : List (TagKey × String × Nat)
deriving DecidableEq, Repr

/-- First-match association-list lookup (a `SELECT ... WHERE key = ?` on a
primary-key column). -/
def alistLookup {κ α : Type} [DecidableEq κ] : List (κ × α) → κ → Option α
  | [], _ => none
  | p :: rest, k => if p.1 = k then some p.2 else alistLookup rest k

/-- `INSERT ... ON CONFLICT(key) DO UPDATE SET value`: update the existing
row in place, else append a fresh row. -/
def alistUpsert {κ α : Type} [DecidableEq κ] : List (κ × α) → κ → α → List (κ × α)
  | [], k, v => [(k, v)]
  | p :: rest, k, v => if p.1 = k then (k, v) :: rest else p :: alistUpsert rest k v

/-- `DELETE ... WHERE key = ?`. -/
def alistErase {κ α : Type} [DecidableEq κ] (l : List (κ × α)) (k : κ) : List (κ × α) :=
  l.filter (fun p => decide (p.1 ≠ k))

theorem alistLookup_upsert {κ α : Type} [DecidableEq κ] (l : List (κ × α)) (k : κ) (v : α) :
    alistLookup (alistUpsert l k v) k = some v := by
  induction l with
  | nil => simp [alistUpsert, alistLookup]
  | cons p rest ih =>
    by_cases h : p.1 = k
    · simp [alistUpsert, alistLookup, h]
    · simp [alistUpsert, alistLookup, h, ih]

theorem alistLookup_erase {κ α : Type} [DecidableEq κ] (l : List (κ × α)) (k : κ) :
    alistLookup (alistErase l k) k = none := by
  induction l with
  | nil => simp [alistErase, alistLookup]
  | cons p rest ih =>
    by_cases h : p.1 = k
    · simpa [alistErase, alistLookup, h] using ih
    · simpa [alistErase, alistLookup, h] using ih

/-- Insertion into the sorted `tags` primary-key index
(lexicographic on `(repository, name)`). -/
def insertTagSorted : List TagKey → TagKey → List TagKey
  | [], k => [k]
  | p :: rest, k =>
    if k.1 < p.1 ∨ (k.1 = p.1 ∧ k.2 < p.2) then k :: p :: rest
    else p :: insertTagSorted rest k

/-- `INSERT INTO tags ... ON CONFLICT(repository, name) DO NOTHING`. -/
def insertTagIgnore (repo tag : String) (st : IndexDB) : IndexDB :=
  if (repo, tag) ∈ st.tags then st
  else { st with tags := insertTagSorted st.tags (repo, tag) }

/-- `INSERT INTO manifests ... ON CONFLICT(tag_rowid) DO UPDATE SET
manifest_json = ?`. -/
def upsertManifestStmt (k : TagKey) (mB : String) (st : IndexDB) : IndexDB :=
  { st with manifests := alistUpsert st.manifests k mB }

/-- `INSERT INTO layers ... ON CONFLICT(digest) DO UPDATE SET media_type,
size`. -/
def upsertLayerStmt (l : LayerDesc) (st : IndexDB) : IndexDB :=
  { st with layers := alistUpsert st.layers l.digest (l.mediaType, l.size) }

/-- `DELETE FROM manifest_layers WHERE manifest_rowid = ...`. -/
def purgeManifestLayersStmt (k : TagKey) (st : IndexDB) : IndexDB :=
  { st with manifestLayers := st.manifestLayers.filter (fun row => decide (row.1 ≠ k)) }

/-- `INSERT INTO manifest_layers (manifest_rowid, layer_digest,
layer_index) VALUES (?, ?, ?)`. -/
def insertManifestLayerStmt (k : TagKey) (d : String) (i : Nat) (st : IndexDB) : IndexDB :=
  { st with manifestLayers := st.manifestLayers ++ [(k, d, i)] }

/-- The statement sequence of `RegistryDB.PutManifest`
(src/pkg/reg/db.go, lines 92-162), in source order: tag upsert, tag-rowid
`SELECT` (read-only), manifest upsert, one layer upsert per decoded layer,
`manifest_layers` purge, manifest-rowid `SELECT` (read-only), and one
ordered `manifest_layers` insert per decoded layer. -/
def putManifestStmts (repo tag mB : String) (m : ManifestV1) : List (IndexDB → IndexDB) :=
  [insertTagIgnore repo tag,
   id,
   upsertManifestStmt (repo, tag) mB]
  ++ m.layers.map upsertLayerStmt
  ++ [purgeManifestLayersStmt (repo, tag),
      id]
  ++ m.layers.enum.map (fun p => insertManifestLayerStmt (repo, tag) p.2.digest p.1)

/-- Run a transaction's statements against the transaction-local state,
numbering them from `i`; the fault oracle `failAt` names the statement at
which the database engine reports an error (`tx.Exec`/`tx.Get` failing). -/
def runTxAux : List (IndexDB → IndexDB) → Nat → Option Nat → IndexDB → Except String IndexDB
  | [], _, _, st => Except.ok st
  | f :: fs, i, failAt, st =>
    if failAt = some i then Except.error "index statement failed"
    else runTxAux fs (i + 1) failAt (f st)

/-- `RegistryDB.PutManifest`: all statements run inside one transaction;
on any statement error the deferred `tx.Rollback()` discards the
transaction state, so the caller-visible database is the input state and
the second component is `false`; on success `tx.Commit()` publishes the
transaction state. -/
def PutManifest (failAt : Option Nat) (db : IndexDB) (repo tag : String)
    (manifestBytes : String) (m : ManifestV1) : IndexDB × Bool :=
  match runTxAux (putManifestStmts repo tag manifestBytes m) 0 failAt db with
  | Except.ok st => (st, true)
  | Except.error _ => (db, false)

/-- `RegistryDB.GetManifest` (src/pkg/reg/db.go, lines 73-90): joined
lookup of the manifest JSON by `(repository, tag)`; `sql.ErrNoRows`
becomes the not-found error. -/
def GetManifest (db : IndexDB) (repo tag : String) : Except String String :=
  match alistLookup db.manifests (repo, tag) with
  | some mj => Except.ok mj
  | none => Except.error ("manifest not found for repository " ++ repo ++ " and tag " ++ tag)

/-- Fold a statement list over a database state (the combined effect of a
committed transaction). -/
def applyStmts (stmts : List (IndexDB → IndexDB)) (db : IndexDB) : IndexDB :=
  stmts.foldl (fun st f => f st) db

theorem runTxAux_ok (stmts : List (IndexDB → IndexDB)) :
    ∀ (i : Nat) (failAt : Option Nat) (st st' : IndexDB),
      runTxAux stmts i failAt st = Except.ok st' → st' = applyStmts stmts st := by
  induction stmts with
  | nil => intro i failAt st st' h; simpa [runTxAux, applyStmts] using h.symm
  | cons f fs ih =>
    intro i failAt st st' h
    rw [runTxAux] at h
    by_cases hf : failAt = some i
    · simp [hf] at h
    · rw [if_neg hf] at h
      simpa [applyStmts] using ih (i + 1) failAt (f st) st' h

theorem PutManifest_fail_eq (failAt : Option Nat) (db : IndexDB) (repo tag mB : String)
    (m : ManifestV1) (hfail : (PutManifest failAt db repo tag mB m).2 = false) :
    (PutManifest failAt db repo tag mB m).1 = db := by
  unfold PutManifest at hfail ⊢
  cases h : runTxAux (putManifestStmts repo tag mB m) 0 failAt db with
  | ok st => rw [h] at hfail; simp at hfail
  | error e => simp

theorem PutManifest_ok_eq (failAt : Option Nat) (db : IndexDB) (repo tag mB : String)
    (m : ManifestV1) (hok : (PutManifest failAt db repo tag mB m).2 = true) :
    (PutManifest failAt db repo tag mB m).1 = applyStmts (putManifestStmts repo tag mB m) db := by
  unfold PutManifest at hok ⊢
  cases h : runTxAux (putManifestStmts repo tag mB m) 0 failAt db with
  | ok st => simpa using runTxAux_ok _ 0 failAt db st h
  | error e => rw [h] at hok; simp at hok

/-- **C4**: `RegistryDB.PutManifest` is all-or-nothing: for every fault
oracle, the caller-visible index state after the call is either exactly
the input state (when any statement fails, the transaction is rolled
back and the call reports failure) or exactly the combined effect of the
whole statement sequence (when the call reports success); in particular a
failing call leaves the index unchanged. -/
theorem c4_PutManifest_atomic (failAt : Option Nat) (db : IndexDB) (repo tag mB : String)
    (m : ManifestV1) :
    ((PutManifest failAt db repo tag mB m).2 = false →
      (PutManifest failAt db repo tag mB m).1 = db) ∧
    ((PutManifest failAt db repo tag mB m).2 = true →
      (PutManifest failAt db repo tag mB m).1 = applyStmts (putManifestStmts repo tag mB m) db) :=
  ⟨PutManifest_fail_eq failAt db repo tag mB m, PutManifest_ok_eq failAt db repo tag mB m⟩

/-! Field-preservation lemmas: each statement touches exactly one table. -/

theorem manifests_insertTagIgnore (repo tag : String) (st : IndexDB) :
    (insertTagIgnore repo tag st).manifests = st.manifests := by
  unfold insertTagIgnore; split <;> rfl

theorem manifestLayers_insertTagIgnore (repo tag : String) (st : IndexDB) :
    (insertTagIgnore repo tag st).manifestLayers = st.manifestLayers := by
  unfold insertTagIgnore; split <;> rfl

theorem manifests_foldl_upsertLayers (ls : List LayerDesc) (st : IndexDB) :
    (applyStmts (ls.map upsertLayerStmt) st).manifests = st.manifests := by
  induction ls generalizing st with
  | nil => rfl
  | cons l rest ih => simpa [applyStmts, upsertLayerStmt] using ih (upsertLayerStmt l st)

theorem manifestLayers_foldl_upsertLayers (ls : List LayerDesc) (st : IndexDB) :
    (applyStmts (ls.map upsertLayerStmt) st).manifestLayers = st.manifestLayers := by
  induction ls generalizing st with
  | nil => rfl
  | cons l rest ih => simpa [applyStmts, upsertLayerStmt] using ih (upsertLayerStmt l st)

theorem manifests_foldl_insertML (k : TagKey) (ps : List (Nat × LayerDesc)) (st : IndexDB) :
    (applyStmts (ps.map (fun p => insertManifestLayerStmt k p.2.digest p.1)) st).manifests
      = st.manifests := by
  induction ps generalizing st with
  | nil => rfl
  | cons p rest ih =>
    simpa [applyStmts, insertManifestLayerStmt] using
      ih (insertManifestLayerStmt k p.2.digest p.1 st)

theorem applyStmts_append (a b : List (IndexDB → IndexDB)) (db : IndexDB) :
    applyStmts (a ++ b) db = applyStmts b (applyStmts a db) := by
  simp [applyStmts, List.foldl_append]

theorem applyStmts_cons (f : IndexDB → IndexDB) (fs : List (IndexDB → IndexDB)) (db : IndexDB) :
    applyStmts (f :: fs) db = applyStmts fs (f db) := rfl

theorem applyStmts_nil (db : IndexDB) : applyStmts [] db = db := rfl

theorem manifests_purge (k : TagKey) (st : IndexDB) :
    (purgeManifestLayersStmt k st).manifests = st.manifests := rfl

theorem manifests_upsertManifestStmt (k : TagKey) (mB : String) (st : IndexDB) :
    (upsertManifestStmt k mB st).manifests = alistUpsert st.manifests k mB := rfl

/-- The `manifests` table after the committed `PutManifest` transaction:
exactly the upsert of the manifest JSON at the tag key. -/
theorem manifests_applyStmts (repo tag mB : String) (m : ManifestV1) (db : IndexDB) :
    (applyStmts (putManifestStmts repo tag mB m) db).manifests
      = alistUpsert db.manifests (repo, tag) mB := by
  simp only [putManifestStmts, applyStmts_append, applyStmts_cons, applyStmts_nil, id_eq,
    manifests_foldl_insertML, manifests_purge, manifests_foldl_upsertLayers,
    manifests_upsertManifestStmt, manifests_insertTagIgnore]

/-- **C1**: for every `PutManifest` for `(repo, tag)` with manifest bytes
`mB` that succeeds, a subsequent `GetManifest` for the same `(repo, tag)`
returns exactly `mB`: the JSON stored in the index round-trips without
alteration. -/
theorem c1_manifest_roundtrip (failAt : Option Nat) (db : IndexDB) (repo tag mB : String)
    (m : ManifestV1) (hok : (PutManifest failAt db repo tag mB m).2 = true) :
    GetManifest (PutManifest failAt db repo tag mB m).1 repo tag = Except.ok mB := by
  rw [PutManifest_ok_eq failAt db repo tag mB m hok]
  unfold GetManifest
  rw [manifests_applyStmts, alistLookup_upsert]

/-- A concrete decoded layer for witnesses. -/
def exampleLayer : LayerDesc :=
  { digest := "sha256:aaa", mediaType := "application/octet-stream", size := 5 }

/-- A concrete decoded manifest for witnesses. -/
def exampleManifest : ManifestV1 :=
  { mediaType := "application/vnd.oci.image.manifest.v1+json", layers := [exampleLayer] }

/-- The empty index. -/
def emptyDB : IndexDB := { tags := [], manifests := [], layers := [], manifestLayers := [] }

/-- Witness for C1 on a fresh index with a one-layer manifest. -/
theorem c1_manifest_roundtrip_witness :
    (PutManifest none emptyDB "lib/app" "v1" "{}" exampleManifest).2 = true ∧
    GetManifest (PutManifest none emptyDB "lib/app" "v1" "{}" exampleManifest).1 "lib/app" "v1"
      = Except.ok "{}" :=
  ⟨by decide, c1_manifest_roundtrip none emptyDB "lib/app" "v1" "{}" exampleManifest (by decide)⟩

/-- Witness for C4: with the engine failing at statement 0, the call
reports failure and the index is unchanged. -/
theorem c4_PutManifest_atomic_witness :
    (PutManifest (some 0) emptyDB "lib/app" "v1" "{}" exampleManifest).1 = emptyDB :=
  (c4_PutManifest_atomic (some 0) emptyDB "lib/app" "v1" "{}" exampleManifest).1 (by decide)

/-- The `(layer_digest, layer_index)` rows of `manifest_layers` for one
manifest, in table order. -/
def manifestLayerRows (db : IndexDB) (k : TagKey) : List (String × Nat) :=
  (db.manifestLayers.filter (fun row => decide (row.1 = k))).map (fun row => row.2)

theorem manifestLayerRows_insertML (k : TagKey) (ps : List (Nat × LayerDesc)) (st : IndexDB) :
    manifestLayerRows
      (applyStmts (ps.map (fun p => insertManifestLayerStmt k p.2.digest p.1)) st) k
      = manifestLayerRows st k ++ ps.map (fun p => (p.2.digest, p.1)) := by
  induction ps generalizing st with
  | nil => simp [applyStmts]
  | cons p rest ih =>
    rw [List.map_cons, applyStmts_cons, ih]
    simp [manifestLayerRows, insertManifestLayerStmt, List.filter_append]

theorem manifestLayerRows_purge (k : TagKey) (st : IndexDB) :
    manifestLayerRows (purgeManifestLayersStmt k st) k = [] := by
  simp only [manifestLayerRows, purgeManifestLayersStmt, List.filter_filter]
  rw [List.map_eq_nil_iff]
  rw [List.filter_eq_nil_iff]
  intro a _
  simp

/-- **C5**: after every successful `PutManifest` for a manifest whose
decoded layer list has length `k`, the index holds exactly the `k`
`manifest_layers` rows for that manifest, with `layer_index` values
forming the contiguous range `0..k-1` in the order of the decoded layer
list (any previous rows for the manifest are replaced). -/
theorem c5_manifest_layer_rows (failAt : Option Nat) (db : IndexDB) (repo tag mB : String)
    (m : ManifestV1) (hok : (PutManifest failAt db repo tag mB m).2 = true) :
    manifestLayerRows (PutManifest failAt db repo tag mB m).1 (repo, tag)
      = m.layers.enum.map (fun p => (p.2.digest, p.1)) ∧
    (manifestLayerRows (PutManifest failAt db repo tag mB m).1 (repo, tag)).length
      = m.layers.length ∧
    (manifestLayerRows (PutManifest failAt db repo tag mB m).1 (repo, tag)).map Prod.snd
      = List.range m.layers.length := by
  have h1 : manifestLayerRows (PutManifest failAt db repo tag mB m).1 (repo, tag)
      = m.layers.enum.map (fun p => (p.2.digest, p.1)) := by
    rw [PutManifest_ok_eq failAt db repo tag mB m hok]
    simp only [putManifestStmts, applyStmts_append, applyStmts_cons, applyStmts_nil, id_eq]
    rw [manifestLayerRows_insertML, manifestLayerRows_purge, List.nil_append]
  refine ⟨h1, ?_, ?_⟩
  · rw [h1]; simp [List.enum_length]
  · rw [h1]
    rw [List.map_map]
    have : (Prod.snd ∘ fun p : Nat × LayerDesc => (p.2.digest, p.1)) = Prod.fst := rfl
    rw [this, List.enum_map_fst]

/-- Witness for C5 on a fresh index with a one-layer manifest. -/
theorem c5_manifest_layer_rows_witness :
    manifestLayerRows (PutManifest none emptyDB "lib/app" "v1" "{}" exampleManifest).1
      ("lib/app", "v1") = exampleManifest.layers.enum.map (fun p => (p.2.digest, p.1)) :=
  (c5_manifest_layer_rows none emptyDB "lib/app" "v1" "{}" exampleManifest (by decide)).1

/-! ## Upload sessions (`upload_sessions` table and the coordinator,
src/unnamed/part_004)

`GetUploadSession` returns `(s3_upload_id, s3_key, uploaded_size)` with
`COALESCE(s3_upload_id, '')`, so a NULL multipart binding is the empty
string.  `uploaded_size` is an `int64`. -/

/-- One `upload_sessions` row (the columns the coordinator reads). -/
structure UploadSession where
  s3UploadId : String
  s3Key : String
  uploadedSize : Int
deriving DecidableEq, Repr

/-- The `upload_sessions` table, keyed by `upload_id`. -/
abbrev Sessions := List (String × UploadSession)

/-- `RegistryDB.GetUploadSession`. -/
def getUploadSession (sessions : Sessions) (uploadID : String) : Option UploadSession :=
  alistLookup sessions uploadID

/-- `RegistryDB.UpdateUploadSession`: `UPDATE upload_sessions SET
s3_upload_id = ?, uploaded_size = ? ... WHERE upload_id = ?`. -/
def updateUploadSession (sessions : Sessions) (uploadID s3uid : String) (size : Int) :
    Sessions :=
  sessions.map (fun p =>
    if p.1 = uploadID then (p.1, { p.2 with s3UploadId := s3uid, uploadedSize := size })
    else p)

/-- `RegistryDB.DeleteUploadSession`: `DELETE FROM upload_sessions WHERE
upload_id = ?`. -/
def deleteUploadSession (sessions : Sessions) (uploadID : String) : Sessions :=
  alistErase sessions uploadID

theorem getUploadSession_update (sessions : Sessions) (uploadID s3uid : String) (size : Int)
    (s : UploadSession) (h : getUploadSession sessions uploadID = some s) :
    getUploadSession (updateUploadSession sessions uploadID s3uid size) uploadID
      = some { s with s3UploadId := s3uid, uploadedSize := size } := by
  induction sessions with
  | nil => simp [getUploadSession, alistLookup] at h
  | cons p rest ih =>
    by_cases hp : p.1 = uploadID
    · rw [getUploadSession, alistLookup, if_pos hp] at h
      cases h
      simp [getUploadSession, updateUploadSession, alistLookup, hp]
    · rw [getUploadSession, alistLookup, if_neg hp] at h
      simpa [getUploadSession, updateUploadSession, alistLookup, hp] using ih h

/-- `Registry.uploadChunk` (src/unnamed/part_004, lines 234-288).  Inputs
beyond those of the source: `createOK` and `uploadOK` decide whether the
object store accepts `CreateMultipartUpload` and `UploadPart`; `updateOK`
decides whether the final session-row `UPDATE` succeeds; `freshId` is the
multipart id the object store would mint.  The body is a byte list and is
read in full (`io.Copy` into a buffer), so `n = body.length`.  The result
carries `n` and the session table after the call. -/
def uploadChunk (createOK uploadOK updateOK : Bool) (freshId : String)
    (sessions : Sessions) (reference : String) (offset : Int) (body : List Nat) :
    Except String (Int × Sessions) :=
  match getUploadSession sessions reference with
  | none => Except.error "upload session not found"
  | some s =>
    if s.s3UploadId = "" ∧ createOK = false then
      Except.error "failed to create multipart upload"
    else if offset ≠ s.uploadedSize then
      Except.error "invalid offset"
    else if uploadOK = false then
      Except.error "failed to upload part"
    else if updateOK = false then
      Except.error "failed to update upload session"
    else
      Except.ok ((body.length : Int),
        updateUploadSession sessions reference
          (if s.s3UploadId = "" then freshId else s.s3UploadId)
          (s.uploadedSize + (body.length : Int)))

/-- **C2**: for every existing upload session, `uploadChunk(uploadId,
offset, body)` succeeds only when `offset` equals the session's
`uploaded_size` prior to the call, and after a successful call the
session's `uploaded_size` equals `offset` plus the number of bytes read
from the body. -/
theorem c2_uploadChunk_offset (createOK uploadOK updateOK : Bool) (freshId : String)
    (sessions : Sessions) (reference : String) (offset : Int) (body : List Nat)
    (n : Int) (sessions2 : Sessions)
    (hok : uploadChunk createOK uploadOK updateOK freshId sessions reference offset body
      = Except.ok (n, sessions2)) :
    ∃ s, getUploadSession sessions reference = some s ∧ offset = s.uploadedSize ∧
      n = body.length ∧
      ∃ s2, getUploadSession sessions2 reference = some s2 ∧
        s2.uploadedSize = offset + body.length := by
  unfold uploadChunk at hok
  split at hok
  · exact absurd hok (by simp)
  next s hget =>
    split at hok
    · exact absurd hok (by simp)
    split at hok
    · exact absurd hok (by simp)
    next hoff =>
      split at hok
      · exact absurd hok (by simp)
      split at hok
      · exact absurd hok (by simp)
      push_neg at hoff
      rw [Except.ok.injEq, Prod.mk.injEq] at hok
      obtain ⟨hn, hsess⟩ := hok
      refine ⟨s, hget, hoff, hn.symm, ?_⟩
      have hupd := getUploadSession_update sessions reference
        (if s.s3UploadId = "" then freshId else s.s3UploadId)
        (s.uploadedSize + (body.length : Int)) s hget
      rw [hsess] at hupd
      exact ⟨_, hupd, by simp [hoff]⟩

/-- Witness for C2: a session at offset 0 accepts a 3-byte chunk. -/
theorem c2_uploadChunk_offset_witness :
    ∃ s, getUploadSession [("u", ⟨"", "uploads/u.uploading", 0⟩)] "u" = some s ∧
      (0 : Int) = s.uploadedSize ∧ (3 : Int) = ([7, 8, 9] : List Nat).length ∧
      ∃ s2, getUploadSession [("u", ⟨"mp1", "uploads/u.uploading", 3⟩)] "u" = some s2 ∧
        s2.uploadedSize = 0 + ([7, 8, 9] : List Nat).length :=
  c2_uploadChunk_offset true true true "mp1" [("u", ⟨"", "uploads/u.uploading", 0⟩)] "u" 0
    [7, 8, 9] 3 [("u", ⟨"mp1", "uploads/u.uploading", 3⟩)] (by rfl)

/-- `Handler.uploadChunk` (src/unnamed/part_000, lines 211-235): the
HTTP adapter parses the Content-Range header into `startOffset`
(`parseContentRange` never reports an error — an unparseable header falls
back to start 0), calls `Registry.uploadChunk`, and maps *any* error to
HTTP 500 (`http.StatusInternalServerError`); on success it answers 202.
The result is the status code and the session table after the call. -/
def handlerUploadChunk (createOK uploadOK updateOK : Bool) (freshId : String)
    (sessions : Sessions) (reference : String) (startOffset : Int) (body : List Nat) :
    Nat × Sessions :=
  match uploadChunk createOK uploadOK updateOK freshId sessions reference startOffset body with
  | Except.error _ => (500, sessions)
  | Except.ok (_, sessions2) => (202, sessions2)

/-- Counterexample to C8 as stated: a session with `uploaded_size = 100`
receiving a chunk at offset 50 is answered with status **500**, not 400 —
the handler maps the OutOfOrderChunk error to
`http.StatusInternalServerError`. -/
theorem c8_out_of_order_counterexample :
    (handlerUploadChunk true true true "mp1"
        [("u", ⟨"mp1", "uploads/u.uploading", 100⟩)] "u" 50 [0]).1 = 500 ∧
    ¬ (handlerUploadChunk true true true "mp1"
        [("u", ⟨"mp1", "uploads/u.uploading", 100⟩)] "u" 50 [0]).1 = 400 := by
  constructor
  · rfl
  · decide

/-- **C8 (amended)**: when an upload-chunk request carries an offset that
does not equal the session's `uploaded_size`, the OutOfOrderChunk
condition is surfaced to the HTTP client with status 500 (the handler maps
every `uploadChunk` error to `http.StatusInternalServerError`, not 400),
and the session table — in particular the session's `uploaded_size` — is
left unchanged. -/
theorem c8_out_of_order_status (createOK uploadOK updateOK : Bool) (freshId : String)
    (sessions : Sessions) (reference : String) (startOffset : Int) (body : List Nat)
    (s : UploadSession) (hget : getUploadSession sessions reference = some s)
    (hoff : startOffset ≠ s.uploadedSize) :
    handlerUploadChunk createOK uploadOK updateOK freshId sessions reference startOffset body
      = (500, sessions) := by
  unfold handlerUploadChunk uploadChunk
  rw [hget]
  by_cases hcreate : s.s3UploadId = "" ∧ createOK = false
  · simp [hcreate]
  · simp [hcreate, hoff]

/-- Witness for C8 (amended) at a concrete out-of-order request. -/
theorem c8_out_of_order_status_witness :
    handlerUploadChunk true true true "mp2" [("v", ⟨"mp2", "uploads/v.uploading", 100⟩)]
      "v" 50 [0] = (500, [("v", ⟨"mp2", "uploads/v.uploading", 100⟩)]) :=
  c8_out_of_order_status true true true "mp2" [("v", ⟨"mp2", "uploads/v.uploading", 100⟩)]
    "v" 50 [0] ⟨"mp2", "uploads/v.uploading", 100⟩ (by rfl) (by decide)

/-- `Registry.abortUpload` (src/unnamed/part_004, lines 375-400): load the
session — an absent row is an error returned to the caller; when a
multipart is bound, abort it best-effort in the object store (failure only
logged); delete the session row (failure only logged).  The result pairs
the returned error with the session table after the call (the error path
returns before any deletion, leaving the table untouched). -/
def abortUpload (sessions : Sessions) (uploadID : String) : Option String × Sessions :=
  match getUploadSession sessions uploadID with
  | none => (some "upload session not found", sessions)
  | some _ => (none, deleteUploadSession sessions uploadID)

/-- Counterexample to C9 as stated: aborting a non-existent upload session
is not a no-op success — `abortUpload` returns the session-not-found
error. -/
theorem c9_abort_missing_counterexample :
    (abortUpload [] "deadbeef").1 = some "upload session not found" := rfl

/-- **C9 (amended)**: for every `uploadId` with no session row,
`abortUpload(uploadId)` *fails* with the session-not-found error and
leaves all state unchanged (the claimed no-op success does not hold);
when the session exists the call succeeds and deletes the session row —
so a repeated abort of the same id returns the error rather than
succeeding idempotently. -/
theorem c9_abortUpload_missing (sessions : Sessions) (uploadID : String) :
    (getUploadSession sessions uploadID = none →
      abortUpload sessions uploadID = (some "upload session not found", sessions)) ∧
    (∀ s, getUploadSession sessions uploadID = some s →
      (abortUpload sessions uploadID).1 = none ∧
      getUploadSession (abortUpload sessions uploadID).2 uploadID = none) := by
  constructor
  · intro h
    unfold abortUpload
    rw [h]
  · intro s h
    unfold abortUpload
    rw [h]
    exact ⟨rfl, alistLookup_erase sessions uploadID⟩

/-- Witness for C9 (amended): the empty table and a one-session table. -/
theorem c9_abortUpload_missing_witness :
    abortUpload [] "u0" = (some "upload session not found", []) :=
  (c9_abortUpload_missing [] "u0").1 rfl

/-! ## Write path: manifest (`Registry.putManifest`, src/unnamed/part_004,
lines 156-216) -/

/-- Outcome of a coordinator write. -/
inductive PutOutcome where
  | panicked
  | error (msg : String)
  | ok (db : IndexDB)
deriving DecidableEq, Repr

/-- `Registry.putManifest`.  `hex` is the lowercase hex encoding of
`sha256(manifestBytes)` as computed by `digest.FromBytes` of the external
go-digest library (the canonical algorithm is sha256, so
`sha.Algorithm() = "sha256"`, `sha.Hex() = hex` and
`sha.String() = "sha256:" ++ hex`); the hash function itself is external
and is a parameter of the model.  `decoded` is the result of
`json.Unmarshal` on the bytes (`none` on a decode error — also external).
`s3FailAt` injects an object-store failure at the n-th `PutObject`;
`idxFailAt` drives the metadata-index transaction, whose error is only
logged.  The first component lists the `(key, body)` object-store writes
issued, in source order, including the ones preceding a failure. -/
def putManifest (s3FailAt : Option Nat) (idxFailAt : Option Nat) (db : IndexDB)
    (name reference : String) (manifestBytes : String) (hex : String)
    (decoded : Option ManifestV1) : List (String × String) × PutOutcome :=
  match goSlice hex 0 2 with
  | none => ([], PutOutcome.panicked)
  | some h2 =>
    match decoded with
    | none => ([], PutOutcome.error "error unmarshalling manifest")
    | some m =>
      if s3FailAt = some 0 then ([], PutOutcome.error "PutObject failed")
      else if s3FailAt = some 1 then
        ([("docker/registry/v2/blobs/sha256/" ++ h2 ++ "/" ++ hex ++ "/data", manifestBytes)],
         PutOutcome.error "PutObject failed")
      else if s3FailAt = some 2 then
        ([("docker/registry/v2/blobs/sha256/" ++ h2 ++ "/" ++ hex ++ "/data", manifestBytes),
          ("docker/registry/v2/repositories/" ++ name ++ "/_manifests/tags/" ++ reference
            ++ "/current/link", "sha256:" ++ hex)],
         PutOutcome.error "PutObject failed")
      else if s3FailAt = some 3 then
        ([("docker/registry/v2/blobs/sha256/" ++ h2 ++ "/" ++ hex ++ "/data", manifestBytes),
          ("docker/registry/v2/repositories/" ++ name ++ "/_manifests/tags/" ++ reference
            ++ "/current/link", "sha256:" ++ hex),
          ("docker/registry/v2/repositories/" ++ name ++ "/_manifests/tags/" ++ reference
            ++ "/index/sha256/" ++ hex ++ "/link", "sha256:" ++ hex)],
         PutOutcome.error "PutObject failed")
      else
        ([("docker/registry/v2/blobs/sha256/" ++ h2 ++ "/" ++ hex ++ "/data", manifestBytes),
          ("docker/registry/v2/repositories/" ++ name ++ "/_manifests/tags/" ++ reference
            ++ "/current/link", "sha256:" ++ hex),
          ("docker/registry/v2/repositories/" ++ name ++ "/_manifests/tags/" ++ reference
            ++ "/index/sha256/" ++ hex ++ "/link", "sha256:" ++ hex),
          ("docker/registry/v2/repositories/" ++ name ++ "/_manifests/revisions/sha256/"
            ++ hex ++ "/link", "sha256:" ++ hex)],
         PutOutcome.ok (PutManifest idxFailAt db name reference manifestBytes m).1)

/-- **C3**: every successful `putManifest(name, reference, bytes)` writes
the textual digest string `sha256:<hex>` to exactly the three link keys
`repositories/<name>/_manifests/tags/<reference>/current/link`,
`repositories/<name>/_manifests/tags/<reference>/index/sha256/<hex>/link`
and `repositories/<name>/_manifests/revisions/sha256/<hex>/link`, each
under the `docker/registry/v2/` prefix, and the manifest bytes to the
canonical blob key — and nothing else.  (`hex` has 64 characters for
sha256; the hypothesis keeps only what the key layout needs.) -/
theorem c3_putManifest_link_keys (idxFailAt : Option Nat) (db : IndexDB)
    (name reference manifestBytes hex : String) (m : ManifestV1)
    (hlen : 2 ≤ hex.length) :
    (putManifest none idxFailAt db name reference manifestBytes hex (some m)).1
      = [("docker/registry/v2/blobs/sha256/" ++ String.mk (hex.data.take 2) ++ "/" ++ hex
            ++ "/data", manifestBytes),
         ("docker/registry/v2/repositories/" ++ name ++ "/_manifests/tags/" ++ reference
            ++ "/current/link", "sha256:" ++ hex),
         ("docker/registry/v2/repositories/" ++ name ++ "/_manifests/tags/" ++ reference
            ++ "/index/sha256/" ++ hex ++ "/link", "sha256:" ++ hex),
         ("docker/registry/v2/repositories/" ++ name ++ "/_manifests/revisions/sha256/"
            ++ hex ++ "/link", "sha256:" ++ hex)] ∧
    ∃ db2, (putManifest none idxFailAt db name reference manifestBytes hex (some m)).2
      = PutOutcome.ok db2 := by
  unfold putManifest
  rw [goSlice_two_of_le hex hlen]
  exact ⟨rfl, _, rfl⟩

/-- Witness for C3 at a concrete 8-character hex (layout only). -/
theorem c3_putManifest_link_keys_witness :
    (putManifest none none emptyDB "lib/app" "v1" "{}" "0123abcd" (some exampleManifest)).1
      = [("docker/registry/v2/blobs/sha256/01/0123abcd/data", "{}"),
         ("docker/registry/v2/repositories/lib/app/_manifests/tags/v1/current/link",
          "sha256:0123abcd"),
         ("docker/registry/v2/repositories/lib/app/_manifests/tags/v1/index/sha256/0123abcd/link",
          "sha256:0123abcd"),
         ("docker/registry/v2/repositories/lib/app/_manifests/revisions/sha256/0123abcd/link",
          "sha256:0123abcd")] := by
  have h := (c3_putManifest_link_keys none emptyDB "lib/app" "v1" "{}" "0123abcd"
    exampleManifest (by decide)).1
  simpa using h

/-! ## Upload completion (`Registry.completeUpload`, src/unnamed/part_004,
lines 290-369) -/

/-- Hex length of the go-digest registered algorithms (`sha256`, `sha384`,
`sha512`); other algorithms are unavailable (`ErrDigestUnsupported`). -/
def algoHexLen (algo : String) : Option Nat :=
  if algo = "sha256" then some 64
  else if algo = "sha384" then some 96
  else if algo = "sha512" then some 128
  else none

/-- One character of `^[a-f0-9]{n}$` (go-digest `Algorithm.Validate`). -/
def isHexChar (c : Char) : Bool :=
  decide (('a' ≤ c ∧ c ≤ 'f') ∨ ('0' ≤ c ∧ c ≤ '9'))

/-- `digest.Parse` of the external go-digest library: split at the first
`:` (`i ≤ 0` or an empty encoded part is `ErrDigestInvalidFormat`); the
algorithm must be available, and the encoded part must be lowercase hex of
the algorithm's exact length. -/
def digestParse (s : String) : Option (String × String) :=
  match cutColon s with
  | none => none
  | some (algo, encoded) =>
    if algo.length = 0 ∨ encoded.length = 0 then none
    else
      match algoHexLen algo with
      | none => none
      | some len =>
        if encoded.length = len ∧ encoded.data.all isHexChar then some (algo, encoded)
        else none

/-- Result of `Registry.completeUpload`. -/
inductive CompleteResult where
  | panicked
  | error (msg : String)
  | ok (finalBlobKey : String) (sessions : Sessions)
deriving DecidableEq, Repr

/-- `Registry.completeUpload`: load the session (absent row → error);
require a bound multipart id; `ListParts` and `CompleteMultipartUpload`
against the object store (`listOK`, `completeOK` inject failures); parse
the expected digest with `digest.Parse`; derive the final
content-addressed key — the algorithm path component is the **literal**
`"sha256"` (the parsed `sha.Algorithm()` is not consulted); copy the
temporary object to that key (`copyOK`); temp-object delete and session
delete are best-effort.  On success the result carries the final blob key
and the session table after the call. -/
def completeUpload (listOK completeOK copyOK : Bool) (sessions : Sessions)
    (reference dig : String) : CompleteResult :=
  match getUploadSession sessions reference with
  | none => CompleteResult.error "upload session not found"
  | some s =>
    if s.s3UploadId = "" then CompleteResult.error "no active multipart upload found"
    else if listOK = false then CompleteResult.error "failed to list parts"
    else if completeOK = false then CompleteResult.error "failed to complete multipart upload"
    else
      match digestParse dig with
      | none => CompleteResult.error "failed to parse digest"
      | some (_algo, hex) =>
        match goSlice hex 0 2 with
        | none => CompleteResult.panicked
        | some h2 =>
          if copyOK = false then CompleteResult.error "failed to copy blob to final location"
          else
            CompleteResult.ok
              ("docker/registry/v2/blobs/sha256/" ++ h2 ++ "/" ++ hex ++ "/data")
              (deleteUploadSession sessions reference)

/-- The 128-character hex part of a concrete sha512 digest. -/
def sha512Hex : String := String.mk (List.replicate 128 'a')

/-- A concrete, valid, non-sha256 digest. -/
def sha512Digest : String := "sha512:" ++ sha512Hex

/-- A one-session table bound to a multipart upload. -/
def exSessionTable : Sessions := [("u1", ⟨"mp", "uploads/u1.uploading", 5⟩)]

set_option maxRecDepth 16384 in
/-- Counterexample to C6 as stated: for the valid sha512 digest the final
key's algorithm component is the literal `sha256`, not the parsed
algorithm `sha512`. -/
theorem c6_completeUpload_algo_counterexample :
    digestParse sha512Digest = some ("sha512", sha512Hex) ∧
    completeUpload true true true exSessionTable "u1" sha512Digest
      = CompleteResult.ok ("docker/registry/v2/blobs/sha256/aa/" ++ sha512Hex ++ "/data") [] ∧
    "docker/registry/v2/blobs/sha256/aa/" ++ sha512Hex ++ "/data"
      ≠ "docker/registry/v2/blobs/sha512/aa/" ++ sha512Hex ++ "/data" := by
  refine ⟨by decide, by decide, by decide⟩

theorem goSlice_eq_some (s : String) (i j : Nat) (t : String) (h : goSlice s i j = some t) :
    t = String.mk ((s.data.drop i).take (j - i)) := by
  unfold goSlice at h
  split at h
  · exact (Option.some.inj h).symm
  · exact absurd h (by simp)

/-- **C6 (amended)**: `completeUpload(uploadId, expectedDigest)` parses
`expectedDigest`, and every successful completion copies the temporary
object to the final key
`docker/registry/v2/blobs/sha256/<hex[0:2]>/<hex>/data`, where the
algorithm path component is hardcoded to the literal `sha256` regardless
of the parsed digest's algorithm (non-sha256 digests are filed under
`sha256/`), and the session row is deleted. -/
theorem c6_completeUpload_final_key (listOK completeOK copyOK : Bool) (sessions : Sessions)
    (reference dig algo hex : String) (key : String) (sessions2 : Sessions)
    (hparse : digestParse dig = some (algo, hex))
    (hok : completeUpload listOK completeOK copyOK sessions reference dig
      = CompleteResult.ok key sessions2) :
    key = "docker/registry/v2/blobs/sha256/" ++ String.mk (hex.data.take 2)
      ++ "/" ++ hex ++ "/data" ∧
    sessions2 = deleteUploadSession sessions reference := by
  unfold completeUpload at hok
  split at hok
  · exact absurd hok (by simp)
  next s hget =>
    split at hok
    · exact absurd hok (by simp)
    split at hok
    · exact absurd hok (by simp)
    split at hok
    · exact absurd hok (by simp)
    rw [hparse] at hok
    split at hok
    · exact absurd hok (by simp)
    next a h hpair =>
      have hp : algo = a ∧ hex = h := by
        have := Option.some.inj hpair
        rw [Prod.mk.injEq] at this
        exact this
      obtain ⟨rfl, rfl⟩ := hp
      split at hok
      · exact absurd hok (by simp)
      next h2 hslice =>
        split at hok
        · exact absurd hok (by simp)
        rw [CompleteResult.ok.injEq] at hok
        obtain ⟨hkey, hsess⟩ := hok
        refine ⟨?_, hsess.symm⟩
        rw [← hkey, goSlice_eq_some hex 0 2 h2 hslice]
        simp

set_option maxRecDepth 16384 in
/-- Witness for C6 (amended) at a concrete sha256 digest. -/
theorem c6_completeUpload_final_key_witness :
    "docker/registry/v2/blobs/sha256/bb/" ++ String.mk (List.replicate 64 'b') ++ "/data"
      = "docker/registry/v2/blobs/sha256/"
        ++ String.mk (("sha256:" ++ String.mk (List.replicate 64 'b')).data.drop 7 |>.take 2)
        ++ "/" ++ String.mk (List.replicate 64 'b') ++ "/data" ∧
    ([] : Sessions) = deleteUploadSession exSessionTable "u1" := by
  have h := c6_completeUpload_final_key true true true exSessionTable "u1"
    ("sha256:" ++ String.mk (List.replicate 64 'b')) "sha256"
    (String.mk (List.replicate 64 'b'))
    ("docker/registry/v2/blobs/sha256/bb/" ++ String.mk (List.replicate 64 'b') ++ "/data")
    [] (by decide) (by decide)
  exact ⟨by decide, h.2⟩

/-! ## Repository listing (`RegistryDB.ListRepositories`, src/pkg/reg/db.go,
lines 202-219)

SQLite compares TEXT values under the BINARY collation — plain `memcmp`.
The registry's repository names are ASCII, so byte order coincides with
character order; `charListLt` is that comparison. -/

/-- `memcmp`-style lexicographic order on character lists (the SQLite
BINARY collation used by `repository > ?`). -/
def charListLt : List Char → List Char → Bool
  | [], [] => false
  | [], _ :: _ => true
  | _ :: _, [] => false
  | a :: as, b :: bs =>
    if a < b then true
    else if b < a then false
    else charListLt as bs

/-- The collation on strings. -/
def strLt (a b : String) : Bool := charListLt a.data b.data

theorem charListLt_irrefl (l : List Char) : charListLt l l = false := by
  induction l with
  | nil => rfl
  | cons a as ih => simp [charListLt, ih]

theorem charListLt_trans (a : List Char) : ∀ (b c : List Char),
    charListLt a b = true → charListLt b c = true → charListLt a c = true := by
  induction a with
  | nil =>
    intro b c hab hbc
    cases b with
    | nil => simp [charListLt] at hab
    | cons y ys =>
      cases c with
      | nil => simp [charListLt] at hbc
      | cons z zs => simp [charListLt]
  | cons x xs ih =>
    intro b c hab hbc
    cases b with
    | nil => simp [charListLt] at hab
    | cons y ys =>
      cases c with
      | nil => simp [charListLt] at hbc
      | cons z zs =>
        rw [charListLt] at hab hbc ⊢
        by_cases hxy : x < y
        · by_cases hyz : y < z
          · rw [if_pos (lt_trans hxy hyz)]
          · rw [if_neg hyz] at hbc
            by_cases hzy : z < y
            · rw [if_pos hzy] at hbc; exact absurd hbc (by simp)
            · have hyzeq : y = z := le_antisymm (not_lt.mp hzy) (not_lt.mp hyz)
              subst hyzeq
              rw [if_pos hxy]
        · rw [if_neg hxy] at hab
          by_cases hyx : y < x
          · rw [if_pos hyx] at hab; exact absurd hab (by simp)
          · rw [if_neg hyx] at hab
            have hxyeq : x = y := le_antisymm (not_lt.mp hyx) (not_lt.mp hxy)
            subst hxyeq
            by_cases hxz : x < z
            · rw [if_pos hxz]
            · rw [if_neg hxz] at hbc ⊢
              by_cases hzx : z < x
              · rw [if_pos hzx] at hbc; exact absurd hbc (by simp)
              · rw [if_neg hzx] at hbc ⊢
                exact ih ys zs hab hbc

theorem charListLt_conn (a : List Char) : ∀ (b : List Char),
    charListLt a b = false → a = b ∨ charListLt b a = true := by
  induction a with
  | nil =>
    intro b h
    cases b with
    | nil => exact Or.inl rfl
    | cons y ys => simp [charListLt] at h
  | cons x xs ih =>
    intro b h
    cases b with
    | nil => exact Or.inr rfl
    | cons y ys =>
      rw [charListLt] at h
      by_cases hxy : x < y
      · rw [if_pos hxy] at h; exact absurd h (by simp)
      · rw [if_neg hxy] at h
        by_cases hyx : y < x
        · right; rw [charListLt, if_pos hyx]
        · rw [if_neg hyx] at h
          have hxyeq : x = y := le_antisymm (not_lt.mp hyx) (not_lt.mp hxy)
          subst hxyeq
          rcases ih ys h with h1 | h1
          · left; rw [h1]
          · right; rw [charListLt, if_neg hyx, if_neg hyx]; exact h1

theorem strLt_irrefl (a : String) : strLt a a = false := charListLt_irrefl a.data

theorem strLt_trans {a b c : String} (hab : strLt a b = true) (hbc : strLt b c = true) :
    strLt a c = true := charListLt_trans a.data b.data c.data hab hbc

theorem strLt_conn {a b : String} (h : strLt a b = false) : a = b ∨ strLt b a = true := by
  rcases charListLt_conn a.data b.data h with h1 | h1
  · left
    cases a; cases b
    exact congrArg String.mk h1
  · right; exact h1

/-- The effective continuation token: a nil token is replaced by the empty
string. -/
def tokStr : Option String → String
  | none => ""
  | some t => t

/-- `RegistryDB.ListRepositories`: `SELECT repository FROM tags WHERE
repository > ? LIMIT ?` — one output row per *tag* row (no `DISTINCT`),
delivered in primary-key index order — and `nextToken` is the last
returned name when the page is non-empty, absent otherwise. -/
def ListRepositories (tags : List TagKey) (continuationToken : Option String) (n : Nat) :
    List String × Option String :=
  match (((tags.filter (fun p => strLt (tokStr continuationToken) p.1)).map
      Prod.fst).take n).getLast? with
  | none => ([], none)
  | some last =>
    (((tags.filter (fun p => strLt (tokStr continuationToken) p.1)).map Prod.fst).take n,
     some last)

/-- Iterated pagination: call `ListRepositories`, follow `nextToken` while
pages are non-empty, and collect every returned name.  `fuel` bounds the
number of pages. -/
def listRepoPages (tags : List TagKey) (n : Nat) : Option String → Nat → List String
  | _, 0 => []
  | tok, fuel + 1 =>
    match ListRepositories tags tok n with
    | ([], _) => []
    | (page, next) => page ++ listRepoPages tags n next fuel

/-- Number of distinct repositories strictly above the token — the fuel
needed to drain the listing. -/
def repoMeasure (tags : List TagKey) (tok : String) : Nat :=
  (((tags.map Prod.fst).filter (fun r => strLt tok r)).dedup).length

/-- Counterexample to C7 as stated: with two tags on one repository, a
single page returns the repository name twice — the page is not a list of
*distinct* names, and iterating pages over the corpus visits the
repository twice, not exactly once. -/
theorem c7_listRepositories_counterexample :
    (ListRepositories [("a", "t1"), ("a", "t2")] none 2).1 = ["a", "a"] ∧
    ¬ (ListRepositories [("a", "t1"), ("a", "t2")] none 2).1.Nodup ∧
    List.count "a" (listRepoPages [("a", "t1"), ("a", "t2")] 2 none 2) = 2 := by
  refine ⟨?_, ?_, ?_⟩ <;> decide

theorem filter_map_fst (tags : List TagKey) (tok : String) :
    (tags.filter (fun p => strLt tok p.1)).map Prod.fst
      = (tags.map Prod.fst).filter (fun r => strLt tok r) := by
  induction tags with
  | nil => rfl
  | cons p rest ih =>
    cases h : strLt tok p.1 <;>
      simp [List.filter_cons, h, ih]

/-- One page of `ListRepositories`, written over the repository column:
the page is the first `n` repository names above the token, and
`nextToken` is the page's last element. -/
theorem ListRepositories_eq (tags : List TagKey) (tok : Option String) (n : Nat) :
    ListRepositories tags tok n
      = ((((tags.map Prod.fst).filter (fun r => strLt (tokStr tok) r)).take n),
         ((((tags.map Prod.fst).filter (fun r => strLt (tokStr tok) r)).take n).getLast?)) := by
  unfold ListRepositories
  rw [filter_map_fst]
  cases h : (((tags.map Prod.fst).filter (fun r => strLt (tokStr tok) r)).take n).getLast? with
  | none =>
    rw [List.getLast?_eq_none_iff] at h
    rw [h]
  | some last => rfl

/-- In a `≤`-sorted list, an element is inside the first `n` entries or
strictly above their last entry. -/
theorem mem_take_or_lt (L : List String)
    (hs : L.Pairwise (fun a b => strLt b a = false)) (n : Nat) (r : String) (hr : r ∈ L)
    (last : String) (hlast : (L.take n).getLast? = some last) :
    r ∈ L.take n ∨ strLt last r = true := by
  by_cases hmem : r ∈ L.take n
  · exact Or.inl hmem
  · right
    have hdrop : r ∈ L.drop n := by
      have hr2 : r ∈ L.take n ++ L.drop n := by rw [List.take_append_drop]; exact hr
      rcases List.mem_append.mp hr2 with h | h
      · exact absurd h hmem
      · exact h
    have hsp : (L.take n ++ L.drop n).Pairwise (fun a b => strLt b a = false) := by
      rw [List.take_append_drop]; exact hs
    rw [List.pairwise_append] at hsp
    have hlastmem : last ∈ L.take n := List.mem_of_getLast?_eq_some hlast
    have hle : strLt r last = false := hsp.2.2 last hlastmem r hdrop
    rcases strLt_conn hle with heq | hlt
    · rw [heq] at hmem
      exact absurd hlastmem hmem
    · exact hlt

/-- Following a page's `nextToken` strictly shrinks the set of distinct
repositories still to list. -/
theorem repoMeasure_lt (tags : List TagKey) (tok last : String)
    (hmem : last ∈ (tags.map Prod.fst).filter (fun r => strLt tok r)) :
    repoMeasure tags last < repoMeasure tags tok := by
  have hmk : ∀ t : String, repoMeasure tags t
      = ((tags.map Prod.fst).toFinset.filter (fun r => strLt t r = true)).card := by
    intro t
    rw [repoMeasure, ← List.card_toFinset, List.toFinset_filter]
  rw [hmk, hmk]
  obtain ⟨hmem1, htok⟩ := List.mem_filter.mp hmem
  have hsub : (tags.map Prod.fst).toFinset.filter (fun r => strLt last r = true)
      ⊆ (tags.map Prod.fst).toFinset.filter (fun r => strLt tok r = true) := by
    intro x hx
    rw [Finset.mem_filter] at hx ⊢
    exact ⟨hx.1, strLt_trans htok hx.2⟩
  apply Finset.card_lt_card
  rw [Finset.ssubset_iff_of_subset hsub]
  refine ⟨last, ?_, ?_⟩
  · rw [Finset.mem_filter]
    exact ⟨List.mem_toFinset.mpr hmem1, htok⟩
  · rw [Finset.mem_filter]
    rintro ⟨-, habs⟩
    rw [strLt_irrefl] at habs
    exact absurd habs (by simp)

/-- Iterating `ListRepositories` pages with enough fuel reaches every
repository above the starting token. -/
theorem listRepoPages_covers (tags : List TagKey) (n : Nat) (hn : 1 ≤ n)
    (hs : (tags.map Prod.fst).Pairwise (fun a b => strLt b a = false)) (fuel : Nat) :
    ∀ (tok : Option String), repoMeasure tags (tokStr tok) ≤ fuel →
      ∀ r ∈ tags.map Prod.fst, strLt (tokStr tok) r = true →
        r ∈ listRepoPages tags n tok fuel := by
  induction fuel with
  | zero =>
    intro tok hfuel r hr htok
    exfalso
    have h1 : r ∈ (tags.map Prod.fst).filter (fun x => strLt (tokStr tok) x) :=
      List.mem_filter.mpr ⟨hr, htok⟩
    have h2 : r ∈ ((tags.map Prod.fst).filter (fun x => strLt (tokStr tok) x)).dedup :=
      List.mem_dedup.mpr h1
    have hpos : 0 < repoMeasure tags (tokStr tok) := List.length_pos_of_mem h2
    omega
  | succ fuel ih =>
    intro tok hfuel r hr htok
    rw [listRepoPages, ListRepositories_eq]
    have hrL : r ∈ (tags.map Prod.fst).filter (fun x => strLt (tokStr tok) x) :=
      List.mem_filter.mpr ⟨hr, htok⟩
    have hLne : (tags.map Prod.fst).filter (fun x => strLt (tokStr tok) x) ≠ [] :=
      List.ne_nil_of_mem hrL
    have htake : ((tags.map Prod.fst).filter (fun x => strLt (tokStr tok) x)).take n ≠ [] := by
      rw [Ne, List.take_eq_nil_iff]
      push_neg
      exact ⟨by omega, hLne⟩
    obtain ⟨last, hlast⟩ : ∃ last,
        (((tags.map Prod.fst).filter (fun x => strLt (tokStr tok) x)).take n).getLast?
          = some last := by
      cases h : (((tags.map Prod.fst).filter (fun x => strLt (tokStr tok) x)).take n).getLast?
        with
      | none => exact absurd (List.getLast?_eq_none_iff.mp h) htake
      | some x => exact ⟨x, rfl⟩
    rw [hlast]
    cases hT : ((tags.map Prod.fst).filter (fun x => strLt (tokStr tok) x)).take n with
    | nil => exact absurd hT htake
    | cons a as =>
      show r ∈ (a :: as) ++ listRepoPages tags n (some last) fuel
      have hsL : ((tags.map Prod.fst).filter (fun x => strLt (tokStr tok) x)).Pairwise
          (fun a b => strLt b a = false) := hs.filter _
      rcases mem_take_or_lt _ hsL n r hrL last hlast with hin | hgt
      · rw [hT] at hin
        exact List.mem_append_left _ hin
      · have hlastL : last ∈ (tags.map Prod.fst).filter (fun x => strLt (tokStr tok) x) :=
          List.take_subset n _ (List.mem_of_getLast?_eq_some hlast)
        have hm : repoMeasure tags last < repoMeasure tags (tokStr tok) :=
          repoMeasure_lt tags (tokStr tok) last hlastL
        have hfuel2 : repoMeasure tags (tokStr (some last)) ≤ fuel := by
          show repoMeasure tags last ≤ fuel
          omega
        exact List.mem_append_right _ (ih (some last) hfuel2 r hr hgt)

/-- **C7 (amended)**: for every page size `n ≥ 1` and every continuation
token, `ListRepositories` returns at most `n` repository names — one name
per *tag* row (the query has no `DISTINCT`), so a repository with several
tags can appear several times within a page — each strictly greater than
the token (empty string at start), with `nextToken` equal to the last
returned name when the page is non-empty; iterating pages over the whole
corpus (tag rows in primary-key index order) visits every repository at
least once, but not exactly once. -/
theorem c7_listRepositories_pagination (tags : List TagKey) (continuationToken : Option String)
    (n : Nat) (hn : 1 ≤ n)
    (hs : (tags.map Prod.fst).Pairwise (fun a b => strLt b a = false)) :
    (ListRepositories tags continuationToken n).1.length ≤ n ∧
    (∀ r ∈ (ListRepositories tags continuationToken n).1,
      strLt (tokStr continuationToken) r = true ∧ r ∈ tags.map Prod.fst) ∧
    (ListRepositories tags continuationToken n).2
      = (ListRepositories tags continuationToken n).1.getLast? ∧
    (∀ r ∈ tags.map Prod.fst, strLt (tokStr continuationToken) r = true →
      r ∈ listRepoPages tags n continuationToken
        (repoMeasure tags (tokStr continuationToken))) := by
  refine ⟨?_, ?_, ?_, ?_⟩
  · rw [ListRepositories_eq]
    show (((tags.map Prod.fst).filter
      (fun r => strLt (tokStr continuationToken) r)).take n).length ≤ n
    rw [List.length_take]
    omega
  · intro r hrmem
    rw [ListRepositories_eq] at hrmem
    have h1 := List.take_subset _ _ hrmem
    obtain ⟨h2, h3⟩ := List.mem_filter.mp h1
    exact ⟨h3, h2⟩
  · rw [ListRepositories_eq]
  · intro r hr htok
    exact listRepoPages_covers tags n hn hs _ continuationToken le_rfl r hr htok

/-- Witness for C7 (amended) on a two-repository, three-tag corpus with
page size 1. -/
theorem c7_listRepositories_pagination_witness :
    (ListRepositories [("a", "t1"), ("a", "t2"), ("b", "t1")] none 1).1.length ≤ 1 :=
  (c7_listRepositories_pagination [("a", "t1"), ("a", "t2"), ("b", "t1")] none 1
    (by decide) (by decide)).1
